import Mathlib

/-!
# Model-based projection / quantifier-elimination API (`src/api/api_qe.cpp`)

A shallow embedding of the foreign-call entry points of `api_qe.cpp`
(`to_apps`, `Z3_qe_model_project`, `Z3_qe_model_project_skolem`,
`Z3_model_extrapolate`, `Z3_qe_lite`).

Conventions of the embedding.

* A `Z3_ast` handle is a term of type `ast`; the null handle is `none`.
* A C array `Z3_app const es[]` read at indices `0 .. n-1` is an index
  function `Nat → ast` together with the count `n`.
* The API context is an explicit state record that every entry point takes and
  returns.
* The engines called by the entry points (`spacer::qe_project`,
  `spacer::compute_implicant_literals`, `qe_lite`) are defined elsewhere in the
  repository; every entry point takes them as function arguments, so that the
  statements about the entry points hold for every engine.  An engine either
  returns normally or throws a `z3_exception`; the engines that receive the
  term manager `m` also return its new state.
* Every entry point runs between `Z3_TRY` and `Z3_CATCH_RETURN(nullptr)`: when
  the engine throws, the exception handler of the context is run and the null
  handle is returned.  The handler is a function argument as well.
-/

namespace Z3

/-! ## Terms -/

/-- Modelled from the spec: the kind tag of a term node (`ast_kind`, declared
in `ast/ast.h`, not in this slice); `AST_APP` is the kind of "application
terms". -/
inductive ast_kind
  | AST_APP
  | AST_VAR
  | AST_QUANTIFIER
  | AST_SORT
  | AST_FUNC_DECL
  deriving DecidableEq, Repr

/-- Modelled from the spec: the term substrate ("immutable node in a hash-consed
directed acyclic graph; structural identity implies semantic identity").  The
node classes are those of `ast_kind`; application nodes are given over a small
signature of integer arithmetic and propositional connectives, with
uninterpreted constants of integer sort (`iconst`) and Boolean sort
(`bconst`) and applications of an uninterpreted function symbol of integer sort
to an argument (`uapp`): "symbol applications with zero or more arguments". -/
inductive ast
  | var (idx : Nat)
  | quantifier (is_forall : Bool) (body : ast)
  | sort (name : Nat)
  | func_decl (name : Nat)
  | tt
  | ff
  | num (n : Int)
  | iconst (x : Nat)
  | bconst (p : Nat)
  | add (a b : ast)
  | mul (a b : ast)
  | le (a b : ast)
  | eq (a b : ast)
  | uapp (f : Nat) (a : ast)
  | not (a : ast)
  | and (a b : ast)
  | or (a b : ast)
  deriving DecidableEq, Repr

/-- Modelled from the spec: the kind of a node, `n->get_kind()`. -/
def get_kind : ast → ast_kind
  | .var _ => .AST_VAR
  | .quantifier _ _ => .AST_QUANTIFIER
  | .sort _ => .AST_SORT
  | .func_decl _ => .AST_FUNC_DECL
  | _ => .AST_APP

/-- Modelled from the spec: the test `is_app(n)`, "is an application term",
that is `n->get_kind() == AST_APP`, the test that `Z3_qe_lite` writes out. -/
def is_app (n : ast) : Bool :=
  decide (get_kind n = ast_kind.AST_APP)

/-! ## API context -/

/-- Modelled from the spec: the error codes of the API (`Z3_error_code`,
declared in `api/z3_api.h`, not in this slice).  The entry points of this file
set `Z3_OK` (no error) and `Z3_INVALID_ARG` ("invalid argument"). -/
inductive Z3_error_code
  | Z3_OK
  | Z3_SORT_ERROR
  | Z3_IOB
  | Z3_INVALID_ARG
  | Z3_PARSER_ERROR
  | Z3_INVALID_PATTERN
  | Z3_MEMOUT_FAIL
  | Z3_FILE_ACCESS_ERROR
  | Z3_INTERNAL_FATAL
  | Z3_INVALID_USAGE
  | Z3_DEC_REF_ERROR
  | Z3_EXCEPTION
  deriving DecidableEq, Repr

/-- Modelled from the spec: the term manager ("term factory") as far as
`api_qe.cpp` drives it explicitly: the reference count of every node
("reference-counted, shared across all consumers"). -/
structure ast_manager where
  ref_count : ast → Nat

/-- Modelled from the spec: the call `m.inc_ref(n)`, which increments the
reference count of `n` by one. -/
def ast_manager.inc_ref (m : ast_manager) (n : ast) : ast_manager :=
  { ref_count := fun a => if a = n then m.ref_count a + 1 else m.ref_count a }

/-- Modelled from the spec: the API context `mk_c(c)` (declared in
`api/api_context.h`, not in this slice): the current error code, the trail of
terms kept alive for the caller, and the term manager `mk_c(c)->m()`. -/
structure context where
  error_code : Z3_error_code
  ast_trail : List ast
  m : ast_manager

/-- Modelled from the spec: the macro `RESET_ERROR_CODE()`, which records that
there is no error. -/
def RESET_ERROR_CODE (c : context) : context :=
  { c with error_code := Z3_error_code.Z3_OK }

/-- Modelled from the spec: the macro `SET_ERROR_CODE(e, nullptr)`, which
records the error `e`. -/
def SET_ERROR_CODE (c : context) (e : Z3_error_code) : context :=
  { c with error_code := e }

/-- Modelled from the spec: `save_ast_trail` is defined in `api_context.cpp`,
which is not part of this slice.  The spec says the entry points register
"newly constructed terms on the caller's trail so they remain valid for the
caller's lifetime", and that reference counts are incremented when a term is
stored in "a trail it keeps alive beyond the call": the term is appended to the
trail and its reference count is incremented. -/
def context.save_ast_trail (c : context) (n : ast) : context :=
  { c with ast_trail := c.ast_trail ++ [n], m := c.m.inc_ref n }

/-- Modelled from the spec: the model, "an externally owned mapping from
symbols to values": the values of the uninterpreted constants and of the
uninterpreted function symbols. -/
structure model where
  ival : Nat → Int
  bval : Nat → Bool
  fval : Nat → Int → Int

/-- Modelled from the spec: the exception `z3_exception` that an engine throws
(declared in `util/z3_exception.h`, not in this slice).  The spec has one
failure inside an engine, "resource-limit / cancellation", "surfaced as an
abort signal"; any other exception carries a code. -/
inductive z3_exception
  | canceled
  | error (code : Nat)
  deriving DecidableEq, Repr

/-- Modelled from the spec: the caller's `Z3_ast_map`, an `obj_map<ast, ast*>`:
a map from terms to terms. -/
abbrev ast_map := ast → Option ast

/-- Modelled from the spec: the call `map.insert(k, v)` of `obj_map` ("inserted
into `out_map`"): it binds `k` to `v`, replacing an earlier binding of `k`. -/
def ast_map.insert (map : ast_map) (k v : ast) : ast_map :=
  fun a => if a = k then some v else map a

/-- Modelled from the spec: the engine's witness map `expr_map` ("a mapping from
an eliminated variable's term to a witness term"): its entries
`(m_key, m_value)` in iteration order; being a map, it holds every key once. -/
structure expr_map where
  entries : List (ast × ast)
  keys_nodup : (entries.map Prod.fst).Nodup

/-! ## `to_apps` (api_qe.cpp, lines 56-64) -/

/-- The loop of `to_apps` with `k` iterations left, at index `i`:
returns `false` at the first element that is not an application, leaving in
`result` what was pushed so far. -/
def to_apps_loop (es : Nat → ast) : Nat → Nat → List ast → Bool × List ast
  | 0, _, result => (true, result)
  | k + 1, i, result =>
    if !is_app (es i) then (false, result)
    else to_apps_loop es k (i + 1) (result ++ [es i])

/-- The function `to_apps(n, es, result)`: the returned pair is the return
value and the final content of the out-parameter `result`. -/
def to_apps (n : Nat) (es : Nat → ast) (result : List ast) : Bool × List ast :=
  to_apps_loop es n 0 result

/-! ## Entry points -/

/-- The entry point `Z3_qe_model_project` (lines 66-90).  `handle_exception`
is the handler `mk_c(c)->handle_exception(ex)` that `Z3_CATCH_RETURN` runs.
`qe_project` is the engine `spacer::qe_project(m, vars, result, *model)`, which
updates the term manager, `vars` and `result` in place: it maps the manager,
the variables, the formula and the model to the new manager and either an
exception or the remaining variables and the projected formula. -/
def Z3_qe_model_project (handle_exception : context → z3_exception → context)
    (qe_project : ast_manager → List ast → ast → model →
      ast_manager × Except z3_exception (List ast × ast))
    (c : context) (m : model) (num_bounds : Nat) (bound : Nat → ast) (body : ast) :
    context × Option ast :=
  let c := RESET_ERROR_CODE c
  let r := to_apps num_bounds bound []
  if !r.1 then
    (SET_ERROR_CODE c Z3_error_code.Z3_INVALID_ARG, none)
  else
    let vars := r.2
    let result := body
    let out := qe_project c.m vars result m
    let c := { c with m := out.1 }
    match out.2 with
    | .error ex => (handle_exception c ex, none)
    | .ok res =>
      let result := res.2
      let c := c.save_ast_trail result
      (c, some result)

/-- The loop `for (auto& kv : emap)` of `Z3_qe_model_project_skolem`
(lines 119-123). -/
def transfer_witnesses : List (ast × ast) → ast_manager → ast_map → ast_manager × ast_map
  | [], m, map_z3 => (m, map_z3)
  | kv :: rest, m, map_z3 =>
    let m := m.inc_ref kv.1
    let m := m.inc_ref kv.2
    transfer_witnesses rest m (map_z3.insert kv.1 kv.2)

/-- The entry point `Z3_qe_model_project_skolem` (lines 92-127).  `qe_project`
is the engine `spacer::qe_project(m, vars, result, model, emap)`; it
additionally fills the witness map `emap`, which is empty at the call. -/
def Z3_qe_model_project_skolem (handle_exception : context → z3_exception → context)
    (qe_project : ast_manager → List ast → ast → model →
      ast_manager × Except z3_exception (List ast × ast × expr_map))
    (c : context) (mdl : model) (num_bounds : Nat) (bound : Nat → ast) (body : ast)
    (map : ast_map) : context × ast_map × Option ast :=
  let c := RESET_ERROR_CODE c
  let r := to_apps num_bounds bound []
  if !r.1 then
    (c, map, none)
  else
    let vars := r.2
    let result := body
    let out := qe_project c.m vars result mdl
    let c := { c with m := out.1 }
    match out.2 with
    | .error ex => (handle_exception c ex, map, none)
    | .ok res =>
      let result := res.2.1
      let emap := res.2.2
      let c := c.save_ast_trail result
      let t := transfer_witnesses emap.entries c.m map
      ({ c with m := t.1 }, t.2, some result)

/-- The entry point `Z3_model_extrapolate` (lines 167-188).
`compute_implicant_literals` is the engine
`spacer::compute_implicant_literals(*model, facts)`; `flatten_and` and `mk_and`
are the term utilities of the same names. -/
def Z3_model_extrapolate (handle_exception : context → z3_exception → context)
    (flatten_and : List ast → List ast)
    (compute_implicant_literals : model → List ast → Except z3_exception (List ast))
    (mk_and : List ast → ast)
    (c : context) (m : model) (fml : ast) : context × Option ast :=
  let c := RESET_ERROR_CODE c
  let facts := [] ++ [fml]
  let facts := flatten_and facts
  match compute_implicant_literals m facts with
  | .error ex => (handle_exception c ex, none)
  | .ok lits =>
    let result := mk_and lits
    let c := c.save_ast_trail result
    (c, some result)

/-- The loop `for (ast* v : vVars)` of `Z3_qe_lite` (lines 198-205): `none`
when an element is not of kind `AST_APP`, otherwise the collected `vApps`. -/
def qe_lite_collect : List ast → List ast → Option (List ast)
  | [], vApps => some vApps
  | v :: vs, vApps =>
    if get_kind v ≠ ast_kind.AST_APP then none
    else qe_lite_collect vs (vApps ++ [v])

/-- The entry point `Z3_qe_lite` (lines 190-225).  `qe` is the engine: the
object `qe_lite qe(m, p)` built on the term manager and its call
`qe(vApps, result)`, which updates the manager and both arguments in place.
The result is the context, the final content of the caller's vector `vars`,
and the returned handle. -/
def Z3_qe_lite (handle_exception : context → z3_exception → context)
    (qe : ast_manager → List ast → ast → ast_manager × Except z3_exception (List ast × ast))
    (c : context) (vars : List ast) (body : ast) : context × List ast × Option ast :=
  let c := RESET_ERROR_CODE c
  let vVars := vars
  match qe_lite_collect vVars [] with
  | none => (SET_ERROR_CODE c Z3_error_code.Z3_INVALID_ARG, vVars, none)
  | some vApps =>
    let result := body
    let out := qe c.m vApps result
    let c := { c with m := out.1 }
    match out.2 with
    | .error ex => (handle_exception c ex, vVars, none)
    | .ok res =>
      let vApps := res.1
      let result := res.2
      let vVars := if vApps.length < vVars.length then [] ++ vApps else vVars
      let c := c.save_ast_trail result
      (c, vVars, some result)

/-! ## Semantics of terms -/

/-- Modelled from the spec: the model's evaluator ("provides evaluation of a
term under the assignment"), for terms of integer sort.  A term that is not of
integer sort evaluates to `0`. -/
def eval_int (M : model) : ast → Int
  | .num n => n
  | .iconst x => M.ival x
  | .add a b => eval_int M a + eval_int M b
  | .mul a b => eval_int M a * eval_int M b
  | .uapp f a => M.fval f (eval_int M a)
  | _ => 0

/-- Modelled from the spec: the model's evaluator for terms of Boolean sort.
A term that is not of Boolean sort evaluates to `false`. -/
def eval_bool (M : model) : ast → Bool
  | .tt => true
  | .ff => false
  | .bconst p => M.bval p
  | .le a b => decide (eval_int M a ≤ eval_int M b)
  | .eq a b => decide (eval_int M a = eval_int M b)
  | .not a => !eval_bool M a
  | .and a b => eval_bool M a && eval_bool M b
  | .or a b => eval_bool M a || eval_bool M b
  | _ => false

/-- An uninterpreted constant: an application of an uninterpreted symbol to no
arguments.  These are the terms that stand for quantified variables. -/
def is_uninterp_const : ast → Bool
  | .iconst _ => true
  | .bconst _ => true
  | _ => false

/-- Modelled from the spec: `flatten_and` is defined in `ast/ast_util`, not in
this slice.  The spec says the fact list is "first flattened by splitting
top-level conjunctions"; this is the splitting of one fact. -/
def flatten_and_core : ast → List ast
  | .and a b => flatten_and_core a ++ flatten_and_core b
  | e => [e]

/-- Modelled from the spec: `flatten_and(facts)`, "splitting top-level
conjunctions" of every fact of the list. -/
def flatten_and : List ast → List ast
  | [] => []
  | f :: fs => flatten_and_core f ++ flatten_and fs

/-- Modelled from the spec: `mk_and(lits)`, the conjunction of a list of
literals (the list is "implicitly conjoined"). -/
def mk_and : List ast → ast
  | [] => .tt
  | [a] => a
  | a :: b :: rest => .and a (mk_and (b :: rest))

namespace spacer

/-- Modelled from the spec: the literals chosen for one fact by the model
implicant extractor (section 4.3): "a sequence of literals such that (a) every
literal is true under `model`, (b) the conjunction of the literals implies the
conjunction of `facts`".  For a conjunction that the model satisfies the
literals of both conjuncts are taken, for a disjunction the literals of the
first disjunct that the model satisfies; an atom contributes itself when the
model satisfies it and its negation otherwise.  The choice depends only on the
model and the fact, so the output is stable. -/
def implicant (M : model) : ast → List ast
  | .and a b =>
    if eval_bool M a then
      (if eval_bool M b then implicant M a ++ implicant M b else implicant M b)
    else implicant M a
  | .or a b =>
    if eval_bool M a then implicant M a
    else if eval_bool M b then implicant M b
    else implicant M a ++ implicant M b
  | .not a => implicant M a
  | e => [if eval_bool M e then e else .not e]

/-- Modelled from the spec: `spacer::compute_implicant_literals(model, facts)`
is defined in `muz/spacer/spacer_util`, not in this slice; it is the model
implicant extractor `implicant(model, facts)` of section 4.3, which returns
the literals for every fact of the list, in order. -/
def compute_implicant_literals (M : model) : List ast → List ast
  | [] => []
  | f :: fs => implicant M f ++ compute_implicant_literals M fs

/-- Modelled from the spec: the projection rule of section 4.2 that applies
"when no richer rule applies": "substitute the model value directly".  Every
occurrence of the uninterpreted constant `v` in the term is replaced by the
numeral (or truth value) that the model gives to `v`. -/
def subst_var (M : model) (v : ast) : ast → ast
  | .iconst x => if v = .iconst x then .num (M.ival x) else .iconst x
  | .bconst p => if v = .bconst p then (if M.bval p then .tt else .ff) else .bconst p
  | .quantifier q b => .quantifier q (subst_var M v b)
  | .add a b => .add (subst_var M v a) (subst_var M v b)
  | .mul a b => .mul (subst_var M v a) (subst_var M v b)
  | .le a b => .le (subst_var M v a) (subst_var M v b)
  | .eq a b => .eq (subst_var M v a) (subst_var M v b)
  | .uapp f a => .uapp f (subst_var M v a)
  | .not a => .not (subst_var M v a)
  | .and a b => .and (subst_var M v a) (subst_var M v b)
  | .or a b => .or (subst_var M v a) (subst_var M v b)
  | e => e

/-- The witness term recorded for an eliminated variable: the term that
`subst_var` puts in its place. -/
def witness_term (M : model) (v : ast) : ast :=
  subst_var M v v

/-- Modelled from the spec: the per-variable loop of the projection engine
(section 4.2).  "Variables are processed in the order given by the caller";
a variable that is an uninterpreted constant is removed "from every literal",
any other term is left in place (section 4.2: what the engine does not
eliminate "may remain in the result formula"). -/
def project_vars (M : model) : List ast → List ast → List ast
  | [], lits => lits
  | v :: vs, lits =>
    project_vars M vs (if is_uninterp_const v then lits.map (subst_var M v) else lits)

/-- Modelled from the spec: `spacer::qe_project(m, vars, fml, mdl)` is defined
in `muz/spacer/spacer_util`, not in this slice.  Section 4.2: "flatten the
formula into a conjunction of literals ... that the model satisfies (its
implicant)", then eliminate every variable from every literal.  The result is
the term manager as it was given and, returned normally, the list of variables
that were not eliminated and the projected formula. -/
def qe_project (m : ast_manager) (vars : List ast) (fml : ast) (M : model) :
    ast_manager × Except z3_exception (List ast × ast) :=
  let lits := compute_implicant_literals M (flatten_and [fml])
  (m, .ok (vars.filter (fun v => !is_uninterp_const v), mk_and (project_vars M vars lits)))

/-- Modelled from the spec: the Skolemized variant of the projection engine,
which "additionally records, for each variable actually eliminated, the
witness term substituted for it". -/
def qe_project_skolem (m : ast_manager) (vars : List ast) (fml : ast) (M : model) :
    ast_manager × Except z3_exception (List ast × ast × expr_map) :=
  let lits := compute_implicant_literals M (flatten_and [fml])
  (m, .ok (vars.filter (fun v => !is_uninterp_const v), mk_and (project_vars M vars lits),
    { entries := ((vars.filter is_uninterp_const).dedup).map (fun v => (v, witness_term M v))
      keys_nodup := by
        simp only [List.map_map, Function.comp_def, List.map_id']
        exact List.nodup_dedup _ }))

end spacer

/-- The light elimination engine that eliminates nothing: it returns its
arguments as they are. -/
def qe_lite_id (m : ast_manager) (vars : List ast) (fml : ast) :
    ast_manager × Except z3_exception (List ast × ast) :=
  (m, .ok (vars, fml))

end Z3

/-! ## Sample inputs -/

namespace Z3

/-- A context with no error recorded, an empty trail and every reference count
equal to one. -/
def sample_context : context :=
  { error_code := Z3_error_code.Z3_OK, ast_trail := [], m := { ref_count := fun _ => 1 } }

/-- The model of scenario A of the spec: `x = 2`, `y = 0` (the constants
numbered 0 and 1), other integer constants `0`, Boolean constants `true`. -/
def sample_model : model :=
  { ival := fun x => if x = 0 then 2 else 0, bval := fun _ => true, fval := fun _ _ => 0 }

/-- The formula of scenario A of the spec, `x + y > 0 ∧ x < 5`, written with
`≤` and negation. -/
def sample_formula : ast :=
  .and (.not (.le (.add (.iconst 0) (.iconst 1)) (.num 0))) (.not (.le (.num 5) (.iconst 0)))

/-- An array holding the integer constant `x`, numbered 0, at every index. -/
def sample_bound : Nat → ast :=
  fun _ => ast.iconst 0

/-- An array holding a bound variable, which is not an application, at every
index. -/
def sample_bad_bound : Nat → ast :=
  fun _ => ast.var 0

/-- The empty caller map. -/
def empty_map : ast_map :=
  fun _ => none

/-- A light elimination engine that eliminates the first variable of the list,
if there is one, and leaves the formula as it is. -/
def qe_lite_drop_first (m : ast_manager) (vars : List ast) (fml : ast) :
    ast_manager × Except z3_exception (List ast × ast) :=
  (m, .ok (vars.tail, fml))

/-- An exception handler that records the error code `Z3_EXCEPTION`. -/
def sample_handler (c : context) (_ex : z3_exception) : context :=
  SET_ERROR_CODE c Z3_error_code.Z3_EXCEPTION

/-- An exception handler that records the error code `Z3_INVALID_ARG`. -/
def invalid_arg_handler (c : context) (_ex : z3_exception) : context :=
  SET_ERROR_CODE c Z3_error_code.Z3_INVALID_ARG

/-- A projection engine that aborts at once, as on a cancellation: it throws
and leaves the term manager as it is. -/
def qe_project_canceled (m : ast_manager) (_vars : List ast) (_fml : ast) (_M : model) :
    ast_manager × Except z3_exception (List ast × ast) :=
  (m, .error z3_exception.canceled)

end Z3

/-! # Properties of the entry points -/

namespace Z3

/-- When every element read by the loop is an application, the loop returns
`true` and has pushed the elements in index order. -/
theorem to_apps_loop_all (es : Nat → ast) :
    ∀ (k i : Nat) (r : List ast), (∀ j, j < k → is_app (es (i + j)) = true) →
      to_apps_loop es k i r = (true, r ++ (List.range k).map (fun j => es (i + j))) := by
  intro k
  induction k with
  | zero => intro i r _; simp [to_apps_loop]
  | succ k ih =>
    intro i r h
    have h0 : is_app (es i) = true := by simpa using h 0 (Nat.succ_pos k)
    have hs : ∀ j, j < k → is_app (es (i + 1 + j)) = true := by
      intro j hj
      have := h (j + 1) (Nat.succ_lt_succ hj)
      simpa [Nat.add_assoc, Nat.add_comm 1 j] using this
    simp only [to_apps_loop, h0, Bool.not_true, Bool.false_eq_true, if_false]
    rw [ih (i + 1) (r ++ [es i]) hs, List.range_succ_eq_map]
    simp [List.map_map, Function.comp_def, Nat.add_assoc, Nat.add_comm 1]

/-- When some element read by the loop is not an application, the loop returns
`false`. -/
theorem to_apps_loop_some (es : Nat → ast) :
    ∀ (k i : Nat) (r : List ast), (∃ j, j < k ∧ is_app (es (i + j)) = false) →
      (to_apps_loop es k i r).1 = false := by
  intro k
  induction k with
  | zero => intro i r h; obtain ⟨j, hj, _⟩ := h; exact absurd hj (Nat.not_lt_zero j)
  | succ k ih =>
    intro i r h
    obtain ⟨j, hj, hna⟩ := h
    by_cases h0 : is_app (es i) = true
    · simp only [to_apps_loop, h0, Bool.not_true, Bool.false_eq_true, if_false]
      apply ih
      cases j with
      | zero => simp [h0] at hna
      | succ j =>
        refine ⟨j, Nat.lt_of_succ_lt_succ hj, ?_⟩
        simpa [Nat.add_assoc, Nat.add_comm 1 j] using hna
    · simp [to_apps_loop, h0]

/-- On an array of applications `to_apps` returns `true` with the elements in
order. -/
theorem to_apps_all (n : Nat) (es : Nat → ast)
    (h : ∀ i, i < n → is_app (es i) = true) :
    to_apps n es [] = (true, (List.range n).map es) := by
  have := to_apps_loop_all es n 0 [] (by simpa using h)
  simpa [to_apps] using this

/-- On an array with an element that is not an application `to_apps` returns
`false`. -/
theorem to_apps_some (n : Nat) (es : Nat → ast) (r : List ast)
    (h : ∃ i, i < n ∧ is_app (es i) = false) :
    (to_apps n es r).1 = false := by
  apply to_apps_loop_some
  simpa using h

/-- Either every element below `n` is an application or one is not. -/
theorem all_app_or_some_not (n : Nat) (es : Nat → ast) :
    (∀ i, i < n → is_app (es i) = true) ∨ (∃ i, i < n ∧ is_app (es i) = false) := by
  by_cases h : ∀ i, i < n → is_app (es i) = true
  · exact Or.inl h
  · right
    push_neg at h
    obtain ⟨i, hi, hne⟩ := h
    exact ⟨i, hi, by simpa using hne⟩

/-- The value of `Z3_qe_model_project` on an array of applications when the
engine returns normally. -/
theorem Z3_qe_model_project_ok (H : context → z3_exception → context)
    (qe : ast_manager → List ast → ast → model →
      ast_manager × Except z3_exception (List ast × ast))
    (c : context) (m : model) (n : Nat) (bound : Nat → ast) (body : ast)
    (res : List ast × ast)
    (h : ∀ i, i < n → is_app (bound i) = true)
    (hq : (qe c.m ((List.range n).map bound) body m).2 = Except.ok res) :
    Z3_qe_model_project H qe c m n bound body =
      (context.save_ast_trail
          { error_code := Z3_error_code.Z3_OK, ast_trail := c.ast_trail,
            m := (qe c.m ((List.range n).map bound) body m).1 }
          res.2,
        some res.2) := by
  simp [Z3_qe_model_project, to_apps_all n bound h, RESET_ERROR_CODE, hq]

/-- The value of `Z3_qe_model_project` on an array of applications when the
engine throws. -/
theorem Z3_qe_model_project_throw (H : context → z3_exception → context)
    (qe : ast_manager → List ast → ast → model →
      ast_manager × Except z3_exception (List ast × ast))
    (c : context) (m : model) (n : Nat) (bound : Nat → ast) (body : ast)
    (ex : z3_exception)
    (h : ∀ i, i < n → is_app (bound i) = true)
    (hq : (qe c.m ((List.range n).map bound) body m).2 = Except.error ex) :
    Z3_qe_model_project H qe c m n bound body =
      (H { error_code := Z3_error_code.Z3_OK, ast_trail := c.ast_trail,
            m := (qe c.m ((List.range n).map bound) body m).1 } ex,
        none) := by
  simp [Z3_qe_model_project, to_apps_all n bound h, RESET_ERROR_CODE, hq]

/-- The value of `Z3_qe_model_project` on an array with an element that is not
an application. -/
theorem Z3_qe_model_project_err (H : context → z3_exception → context)
    (qe : ast_manager → List ast → ast → model →
      ast_manager × Except z3_exception (List ast × ast))
    (c : context) (m : model) (n : Nat) (bound : Nat → ast) (body : ast)
    (h : ∃ i, i < n ∧ is_app (bound i) = false) :
    Z3_qe_model_project H qe c m n bound body =
      (SET_ERROR_CODE (RESET_ERROR_CODE c) Z3_error_code.Z3_INVALID_ARG, none) := by
  simp [Z3_qe_model_project, to_apps_some n bound [] h]

/-- The value of `Z3_qe_model_project_skolem` on an array of applications when
the engine returns normally. -/
theorem Z3_qe_model_project_skolem_ok (H : context → z3_exception → context)
    (qe : ast_manager → List ast → ast → model →
      ast_manager × Except z3_exception (List ast × ast × expr_map))
    (c : context) (m : model) (n : Nat) (bound : Nat → ast) (body : ast) (map : ast_map)
    (res : List ast × ast × expr_map)
    (h : ∀ i, i < n → is_app (bound i) = true)
    (hq : (qe c.m ((List.range n).map bound) body m).2 = Except.ok res) :
    Z3_qe_model_project_skolem H qe c m n bound body map =
      ({ error_code := Z3_error_code.Z3_OK,
          ast_trail := c.ast_trail ++ [res.2.1],
          m := (transfer_witnesses res.2.2.entries
            ((qe c.m ((List.range n).map bound) body m).1.inc_ref res.2.1) map).1 },
        (transfer_witnesses res.2.2.entries
            ((qe c.m ((List.range n).map bound) body m).1.inc_ref res.2.1) map).2,
        some res.2.1) := by
  simp [Z3_qe_model_project_skolem, to_apps_all n bound h, RESET_ERROR_CODE,
    context.save_ast_trail, hq]

/-- The value of `Z3_qe_model_project_skolem` on an array of applications when
the engine throws. -/
theorem Z3_qe_model_project_skolem_throw (H : context → z3_exception → context)
    (qe : ast_manager → List ast → ast → model →
      ast_manager × Except z3_exception (List ast × ast × expr_map))
    (c : context) (m : model) (n : Nat) (bound : Nat → ast) (body : ast) (map : ast_map)
    (ex : z3_exception)
    (h : ∀ i, i < n → is_app (bound i) = true)
    (hq : (qe c.m ((List.range n).map bound) body m).2 = Except.error ex) :
    Z3_qe_model_project_skolem H qe c m n bound body map =
      (H { error_code := Z3_error_code.Z3_OK, ast_trail := c.ast_trail,
            m := (qe c.m ((List.range n).map bound) body m).1 } ex,
        map, none) := by
  simp [Z3_qe_model_project_skolem, to_apps_all n bound h, RESET_ERROR_CODE, hq]

/-- The value of `Z3_qe_model_project_skolem` on an array with an element that
is not an application. -/
theorem Z3_qe_model_project_skolem_err (H : context → z3_exception → context)
    (qe : ast_manager → List ast → ast → model →
      ast_manager × Except z3_exception (List ast × ast × expr_map))
    (c : context) (m : model) (n : Nat) (bound : Nat → ast) (body : ast) (map : ast_map)
    (h : ∃ i, i < n ∧ is_app (bound i) = false) :
    Z3_qe_model_project_skolem H qe c m n bound body map =
      (RESET_ERROR_CODE c, map, none) := by
  simp [Z3_qe_model_project_skolem, to_apps_some n bound [] h]

end Z3

namespace Z3

/-- On a vector of applications the collecting loop of `Z3_qe_lite` returns
the elements in order. -/
theorem qe_lite_collect_all :
    ∀ (vs acc : List ast), (∀ v ∈ vs, get_kind v = ast_kind.AST_APP) →
      qe_lite_collect vs acc = some (acc ++ vs) := by
  intro vs
  induction vs with
  | nil => intro acc _; simp [qe_lite_collect]
  | cons v vs ih =>
    intro acc h
    have hv : get_kind v = ast_kind.AST_APP := h v (List.mem_cons_self v vs)
    have hvs : ∀ w ∈ vs, get_kind w = ast_kind.AST_APP :=
      fun w hw => h w (List.mem_cons_of_mem v hw)
    simp [qe_lite_collect, hv, ih (acc ++ [v]) hvs]

/-- On a vector with an element that is not an application the collecting loop
of `Z3_qe_lite` fails. -/
theorem qe_lite_collect_some :
    ∀ (vs acc : List ast), (∃ v ∈ vs, get_kind v ≠ ast_kind.AST_APP) →
      qe_lite_collect vs acc = none := by
  intro vs
  induction vs with
  | nil => intro acc h; obtain ⟨v, hv, _⟩ := h; exact absurd hv (List.not_mem_nil v)
  | cons v vs ih =>
    intro acc h
    by_cases hv : get_kind v = ast_kind.AST_APP
    · obtain ⟨w, hw, hne⟩ := h
      have hw2 : w ∈ vs := by
        rcases List.mem_cons.mp hw with rfl | hw2
        · exact absurd hv hne
        · exact hw2
      simp [qe_lite_collect, hv, ih (acc ++ [v]) ⟨w, hw2, hne⟩]
    · simp [qe_lite_collect, hv]

/-- The value of `Z3_qe_lite` on a vector of applications when the engine
returns normally. -/
theorem Z3_qe_lite_ok (H : context → z3_exception → context)
    (qe : ast_manager → List ast → ast → ast_manager × Except z3_exception (List ast × ast))
    (c : context) (vars : List ast) (body : ast) (res : List ast × ast)
    (h : ∀ v ∈ vars, get_kind v = ast_kind.AST_APP)
    (hq : (qe c.m vars body).2 = Except.ok res) :
    Z3_qe_lite H qe c vars body =
      (context.save_ast_trail
          { error_code := Z3_error_code.Z3_OK, ast_trail := c.ast_trail,
            m := (qe c.m vars body).1 }
          res.2,
        (if res.1.length < vars.length then res.1 else vars),
        some res.2) := by
  simp [Z3_qe_lite, qe_lite_collect_all vars [] h, RESET_ERROR_CODE, hq]

/-- The value of `Z3_qe_lite` on a vector of applications when the engine
throws. -/
theorem Z3_qe_lite_throw (H : context → z3_exception → context)
    (qe : ast_manager → List ast → ast → ast_manager × Except z3_exception (List ast × ast))
    (c : context) (vars : List ast) (body : ast) (ex : z3_exception)
    (h : ∀ v ∈ vars, get_kind v = ast_kind.AST_APP)
    (hq : (qe c.m vars body).2 = Except.error ex) :
    Z3_qe_lite H qe c vars body =
      (H { error_code := Z3_error_code.Z3_OK, ast_trail := c.ast_trail,
            m := (qe c.m vars body).1 } ex,
        vars, none) := by
  simp [Z3_qe_lite, qe_lite_collect_all vars [] h, RESET_ERROR_CODE, hq]

/-- The value of `Z3_qe_lite` on a vector with an element that is not an
application. -/
theorem Z3_qe_lite_err (H : context → z3_exception → context)
    (qe : ast_manager → List ast → ast → ast_manager × Except z3_exception (List ast × ast))
    (c : context) (vars : List ast) (body : ast)
    (h : ∃ v ∈ vars, get_kind v ≠ ast_kind.AST_APP) :
    Z3_qe_lite H qe c vars body =
      (SET_ERROR_CODE (RESET_ERROR_CODE c) Z3_error_code.Z3_INVALID_ARG, vars, none) := by
  simp [Z3_qe_lite, qe_lite_collect_some vars [] h]

/-- A key that the witness map does not hold keeps its binding in the caller's
map. -/
theorem transfer_witnesses_frame :
    ∀ (emap : List (ast × ast)) (m : ast_manager) (map : ast_map) (k : ast),
      k ∉ emap.map Prod.fst → (transfer_witnesses emap m map).2 k = map k := by
  intro emap
  induction emap with
  | nil => intro m map k _; rfl
  | cons kv rest ih =>
    intro m map k hk
    simp only [List.map_cons, List.mem_cons, not_or] at hk
    simp only [transfer_witnesses]
    rw [ih _ _ k hk.2]
    simp [ast_map.insert, hk.1]

/-- Every entry of a witness map with distinct keys is found in the caller's
map after the transfer. -/
theorem transfer_witnesses_entry :
    ∀ (emap : List (ast × ast)) (m : ast_manager) (map : ast_map) (k v : ast),
      (emap.map Prod.fst).Nodup → (k, v) ∈ emap →
      (transfer_witnesses emap m map).2 k = some v := by
  intro emap
  induction emap with
  | nil => intro m map k v _ h; exact absurd h (List.not_mem_nil _)
  | cons kv rest ih =>
    intro m map k v hnd h
    simp only [List.map_cons, List.nodup_cons] at hnd
    simp only [transfer_witnesses]
    rcases List.mem_cons.mp h with heq | hin
    · subst heq
      rw [transfer_witnesses_frame rest _ _ k hnd.1]
      simp [ast_map.insert]
    · exact ih _ _ k v hnd.2 hin

/-- The reference count of a term after the transfer: one more for each entry
of which it is the key, and one more for each entry of which it is the
value. -/
theorem transfer_witnesses_ref_count :
    ∀ (emap : List (ast × ast)) (m : ast_manager) (map : ast_map) (t : ast),
      (transfer_witnesses emap m map).1.ref_count t =
        m.ref_count t + (emap.map Prod.fst).count t + (emap.map Prod.snd).count t := by
  intro emap
  induction emap with
  | nil => intro m map t; simp [transfer_witnesses]
  | cons kv rest ih =>
    intro m map t
    simp only [transfer_witnesses, List.map_cons, List.count_cons]
    rw [ih]
    simp only [ast_manager.inc_ref, beq_iff_eq]
    have e1 : (t = kv.1) ↔ (kv.1 = t) := eq_comm
    have e2 : (t = kv.2) ↔ (kv.2 = t) := eq_comm
    simp only [e1, e2]
    split_ifs <;> omega

end Z3

namespace Z3

/-- C1 as stated fails when the engine throws: on an array whose only element
is the constant `x`, an application, with a projection engine that aborts,
`Z3_qe_model_project` does not return a non-error result; it returns null, with
the error code that the exception handler records.  When that code is
`Z3_INVALID_ARG`, the call ends with `Z3_INVALID_ARG` and null although every
element of the array is an application. -/
theorem Z3_qe_model_project_counterexample :
    ¬ ((∀ i, i < 1 → is_app (sample_bound i) = true) →
        (Z3_qe_model_project sample_handler qe_project_canceled sample_context sample_model 1
            sample_bound sample_formula).1.error_code = Z3_error_code.Z3_OK ∧
        ∃ t, (Z3_qe_model_project sample_handler qe_project_canceled sample_context
            sample_model 1 sample_bound sample_formula).2 = some t) ∧
    ¬ (((Z3_qe_model_project invalid_arg_handler qe_project_canceled sample_context
            sample_model 1 sample_bound sample_formula).1.error_code
          = Z3_error_code.Z3_INVALID_ARG ∧
        (Z3_qe_model_project invalid_arg_handler qe_project_canceled sample_context
            sample_model 1 sample_bound sample_formula).2 = none) ↔
      ∃ i, i < 1 ∧ is_app (sample_bound i) = false) := by
  constructor
  · intro h
    have h2 := (h (by decide)).2
    rw [Z3_qe_model_project_throw sample_handler qe_project_canceled sample_context
      sample_model 1 sample_bound sample_formula z3_exception.canceled (by decide) rfl] at h2
    obtain ⟨t, ht⟩ := h2
    exact absurd ht (by simp)
  · intro h
    rw [Z3_qe_model_project_throw invalid_arg_handler qe_project_canceled sample_context
      sample_model 1 sample_bound sample_formula z3_exception.canceled (by decide) rfl] at h
    obtain ⟨i, hi, hna⟩ := h.mp ⟨rfl, rfl⟩
    have hi0 : i = 0 := by omega
    subst hi0
    exact absurd hna (by decide)

/-- C1, amended. For every exception handler, engine, context, model, formula
body and array `bound` of `num_bounds` terms: if one of the `num_bounds`
elements is not an application term, `Z3_qe_model_project` leaves the error
code `Z3_INVALID_ARG` and returns null; when every element is an application
term (also when `num_bounds = 0`) the wrapper sets no invalid-argument error:
if the engine returns normally the error code is `Z3_OK` and the returned handle
is the non-null term produced by the engine, and if the engine throws, the
result is the context left by the exception handler and null.  So null is
returned if and only if an element is not an application term or the engine
throws; and the call ends with `Z3_INVALID_ARG` and null if and only if an
element is not an application term, or every element is one, the engine throws
and the handler records `Z3_INVALID_ARG`. -/
theorem Z3_qe_model_project_invalid_arg
    (H : context → z3_exception → context)
    (qe : ast_manager → List ast → ast → model →
      ast_manager × Except z3_exception (List ast × ast))
    (c : context) (m : model) (num_bounds : Nat) (bound : Nat → ast) (body : ast) :
    ((∃ i, i < num_bounds ∧ is_app (bound i) = false) →
      (Z3_qe_model_project H qe c m num_bounds bound body).1.error_code
          = Z3_error_code.Z3_INVALID_ARG ∧
      (Z3_qe_model_project H qe c m num_bounds bound body).2 = none) ∧
    ((∀ i, i < num_bounds → is_app (bound i) = true) →
      (∀ res, (qe c.m ((List.range num_bounds).map bound) body m).2 = Except.ok res →
        (Z3_qe_model_project H qe c m num_bounds bound body).1.error_code
            = Z3_error_code.Z3_OK ∧
        (Z3_qe_model_project H qe c m num_bounds bound body).2 = some res.2) ∧
      (∀ ex, (qe c.m ((List.range num_bounds).map bound) body m).2 = Except.error ex →
        Z3_qe_model_project H qe c m num_bounds bound body =
          (H { error_code := Z3_error_code.Z3_OK, ast_trail := c.ast_trail,
                m := (qe c.m ((List.range num_bounds).map bound) body m).1 } ex,
            none))) ∧
    ((Z3_qe_model_project H qe c m num_bounds bound body).2 = none ↔
      (∃ i, i < num_bounds ∧ is_app (bound i) = false) ∨
      ∃ ex, (qe c.m ((List.range num_bounds).map bound) body m).2 = Except.error ex) ∧
    (((Z3_qe_model_project H qe c m num_bounds bound body).1.error_code
          = Z3_error_code.Z3_INVALID_ARG ∧
        (Z3_qe_model_project H qe c m num_bounds bound body).2 = none) ↔
      (∃ i, i < num_bounds ∧ is_app (bound i) = false) ∨
      ((∀ i, i < num_bounds → is_app (bound i) = true) ∧
        ∃ ex, (qe c.m ((List.range num_bounds).map bound) body m).2 = Except.error ex ∧
          (H { error_code := Z3_error_code.Z3_OK, ast_trail := c.ast_trail,
                m := (qe c.m ((List.range num_bounds).map bound) body m).1 } ex).error_code
            = Z3_error_code.Z3_INVALID_ARG)) := by
  refine ⟨?_, ?_, ?_, ?_⟩
  · intro h
    rw [Z3_qe_model_project_err H qe c m num_bounds bound body h]
    exact ⟨rfl, rfl⟩
  · intro hall
    refine ⟨?_, ?_⟩
    · intro res hq
      rw [Z3_qe_model_project_ok H qe c m num_bounds bound body res hall hq]
      exact ⟨rfl, rfl⟩
    · intro ex hq
      exact Z3_qe_model_project_throw H qe c m num_bounds bound body ex hall hq
  · rcases all_app_or_some_not num_bounds bound with hall | hsome
    · cases hq : (qe c.m ((List.range num_bounds).map bound) body m).2 with
      | error ex =>
        rw [Z3_qe_model_project_throw H qe c m num_bounds bound body ex hall hq]
        simp
      | ok res =>
        rw [Z3_qe_model_project_ok H qe c m num_bounds bound body res hall hq]
        constructor
        · intro h
          exact absurd h (by simp)
        · intro h
          rcases h with ⟨i, hi, hna⟩ | ⟨ex, hex⟩
          · rw [hall i hi] at hna
            exact absurd hna (by simp)
          · exact absurd hex (by simp)
    · rw [Z3_qe_model_project_err H qe c m num_bounds bound body hsome]
      simp only [true_iff]
      exact Or.inl hsome
  · rcases all_app_or_some_not num_bounds bound with hall | hsome
    · cases hq : (qe c.m ((List.range num_bounds).map bound) body m).2 with
      | error ex =>
        rw [Z3_qe_model_project_throw H qe c m num_bounds bound body ex hall hq]
        constructor
        · intro h
          exact Or.inr ⟨hall, ex, rfl, h.1⟩
        · intro h
          rcases h with ⟨i, hi, hna⟩ | ⟨_, ex2, hex, hcode⟩
          · rw [hall i hi] at hna
            exact absurd hna (by simp)
          · have hex2 : ex = ex2 := by
              simpa using hex
            subst hex2
            exact ⟨hcode, rfl⟩
      | ok res =>
        rw [Z3_qe_model_project_ok H qe c m num_bounds bound body res hall hq]
        constructor
        · intro h
          exact absurd h.2 (by simp)
        · intro h
          rcases h with ⟨i, hi, hna⟩ | ⟨_, ex, hex, _⟩
          · rw [hall i hi] at hna
            exact absurd hna (by simp)
          · exact absurd hex (by simp)
    · rw [Z3_qe_model_project_err H qe c m num_bounds bound body hsome]
      constructor
      · intro _
        exact Or.inl hsome
      · intro _
        exact ⟨rfl, rfl⟩

/-- C1, amended, at concrete inputs: a bound variable in the array gives
`Z3_INVALID_ARG` and null; an empty array and an array holding the constant `x`
give `Z3_OK` with the modelled engine; the constant `x` with an engine that
aborts gives null. -/
theorem Z3_qe_model_project_invalid_arg_witness :
    ((Z3_qe_model_project sample_handler spacer.qe_project sample_context sample_model 1
        sample_bad_bound sample_formula).1.error_code = Z3_error_code.Z3_INVALID_ARG ∧
      (Z3_qe_model_project sample_handler spacer.qe_project sample_context sample_model 1
        sample_bad_bound sample_formula).2 = none) ∧
    (Z3_qe_model_project sample_handler spacer.qe_project sample_context sample_model 0
        sample_bad_bound sample_formula).1.error_code = Z3_error_code.Z3_OK ∧
    (Z3_qe_model_project sample_handler spacer.qe_project sample_context sample_model 1
        sample_bound sample_formula).1.error_code = Z3_error_code.Z3_OK ∧
    (Z3_qe_model_project sample_handler qe_project_canceled sample_context sample_model 1
        sample_bound sample_formula).2 = none :=
  ⟨(Z3_qe_model_project_invalid_arg sample_handler spacer.qe_project sample_context
      sample_model 1 sample_bad_bound sample_formula).1 ⟨0, by decide, rfl⟩,
    (((Z3_qe_model_project_invalid_arg sample_handler spacer.qe_project sample_context
      sample_model 0 sample_bad_bound sample_formula).2.1 (by decide)).1 _ rfl).1,
    (((Z3_qe_model_project_invalid_arg sample_handler spacer.qe_project sample_context
      sample_model 1 sample_bound sample_formula).2.1 (by decide)).1 _ rfl).1,
    (Z3_qe_model_project_invalid_arg sample_handler qe_project_canceled sample_context
      sample_model 1 sample_bound sample_formula).2.2.1.mpr
        (Or.inr ⟨z3_exception.canceled, rfl⟩)⟩

/-- C2 (the code at the failing input). On an array whose only element is a
bound variable, `Z3_qe_model_project_skolem` returns null and leaves the error
code `Z3_OK`, while `Z3_qe_model_project` on the same array returns null and
leaves the error code `Z3_INVALID_ARG`. -/
theorem Z3_qe_model_project_skolem_error_code_not_set :
    (Z3_qe_model_project_skolem sample_handler spacer.qe_project_skolem sample_context
        sample_model 1 sample_bad_bound sample_formula empty_map).2.2 = none ∧
    (Z3_qe_model_project_skolem sample_handler spacer.qe_project_skolem sample_context
        sample_model 1 sample_bad_bound sample_formula empty_map).1.error_code
      = Z3_error_code.Z3_OK ∧
    (Z3_qe_model_project sample_handler spacer.qe_project sample_context sample_model 1
        sample_bad_bound sample_formula).2 = none ∧
    (Z3_qe_model_project sample_handler spacer.qe_project sample_context sample_model 1
        sample_bad_bound sample_formula).1.error_code = Z3_error_code.Z3_INVALID_ARG := by
  have h : ∃ i, i < 1 ∧ is_app (sample_bad_bound i) = false := ⟨0, by decide, rfl⟩
  rw [Z3_qe_model_project_skolem_err _ _ _ _ _ _ _ _ h,
    Z3_qe_model_project_err _ _ _ _ _ _ _ h]
  exact ⟨rfl, rfl, rfl, rfl⟩

/-- C3. Atomicity of the invalid-argument path. When the variable collection
holds a term that is not an application, each of `Z3_qe_model_project`,
`Z3_qe_model_project_skolem` and `Z3_qe_lite` returns null with a value that
depends neither on the engine nor on the exception handler (the engine is not
called and no result term is built): the trail and the term manager of the
context are those of the call, the caller's witness map is the one given, and
the caller's vector of `Z3_qe_lite` is the one given.  (The array `bound` is
`const` and terms are immutable, so the array and the formula body cannot
change.) -/
theorem invalid_arg_path_atomic :
    (∀ (H : context → z3_exception → context)
        (qe : ast_manager → List ast → ast → model →
          ast_manager × Except z3_exception (List ast × ast))
        (c : context) (m : model) (num_bounds : Nat) (bound : Nat → ast) (body : ast),
        (∃ i, i < num_bounds ∧ is_app (bound i) = false) →
        Z3_qe_model_project H qe c m num_bounds bound body =
          ({ error_code := Z3_error_code.Z3_INVALID_ARG, ast_trail := c.ast_trail, m := c.m },
            none)) ∧
    (∀ (H : context → z3_exception → context)
        (qe : ast_manager → List ast → ast → model →
          ast_manager × Except z3_exception (List ast × ast × expr_map))
        (c : context) (m : model) (num_bounds : Nat) (bound : Nat → ast) (body : ast)
        (map : ast_map),
        (∃ i, i < num_bounds ∧ is_app (bound i) = false) →
        Z3_qe_model_project_skolem H qe c m num_bounds bound body map =
          ({ error_code := Z3_error_code.Z3_OK, ast_trail := c.ast_trail, m := c.m },
            map, none)) ∧
    (∀ (H : context → z3_exception → context)
        (qe : ast_manager → List ast → ast → ast_manager × Except z3_exception (List ast × ast))
        (c : context) (vars : List ast) (body : ast),
        (∃ v ∈ vars, get_kind v ≠ ast_kind.AST_APP) →
        Z3_qe_lite H qe c vars body =
          ({ error_code := Z3_error_code.Z3_INVALID_ARG, ast_trail := c.ast_trail, m := c.m },
            vars, none)) := by
  refine ⟨?_, ?_, ?_⟩
  · intro H qe c m n bound body h
    rw [Z3_qe_model_project_err H qe c m n bound body h]
    rfl
  · intro H qe c m n bound body map h
    rw [Z3_qe_model_project_skolem_err H qe c m n bound body map h]
    rfl
  · intro H qe c vars body h
    rw [Z3_qe_lite_err H qe c vars body h]
    rfl

/-- C3 at a concrete input: an array and a vector that hold a bound
variable. -/
theorem invalid_arg_path_atomic_witness :
    Z3_qe_model_project sample_handler spacer.qe_project sample_context sample_model 2
        sample_bad_bound sample_formula =
      ({ error_code := Z3_error_code.Z3_INVALID_ARG, ast_trail := sample_context.ast_trail,
          m := sample_context.m }, none) ∧
    Z3_qe_model_project_skolem sample_handler spacer.qe_project_skolem sample_context
        sample_model 2 sample_bad_bound sample_formula empty_map =
      ({ error_code := Z3_error_code.Z3_OK, ast_trail := sample_context.ast_trail,
          m := sample_context.m }, empty_map, none) ∧
    Z3_qe_lite sample_handler qe_lite_drop_first sample_context [ast.iconst 0, ast.var 0]
        sample_formula =
      ({ error_code := Z3_error_code.Z3_INVALID_ARG, ast_trail := sample_context.ast_trail,
          m := sample_context.m }, [ast.iconst 0, ast.var 0], none) :=
  ⟨invalid_arg_path_atomic.1 sample_handler spacer.qe_project sample_context sample_model 2
      sample_bad_bound sample_formula ⟨0, by decide, rfl⟩,
    invalid_arg_path_atomic.2.1 sample_handler spacer.qe_project_skolem sample_context
      sample_model 2 sample_bad_bound sample_formula empty_map ⟨0, by decide, rfl⟩,
    invalid_arg_path_atomic.2.2 sample_handler qe_lite_drop_first sample_context
      [ast.iconst 0, ast.var 0] sample_formula ⟨ast.var 0, by decide, by decide⟩⟩

/-- C6. For every vector `vars` of application terms and every formula body,
when the light-elimination engine returns and its final variable list is a
sub-sequence of the list it was given, after `Z3_qe_lite` the caller's vector
holds exactly the engine's final list, in the engine's order, and the returned
term is the engine's formula; when the engine removed no variable the vector is
the one given. -/
theorem Z3_qe_lite_copy_back (H : context → z3_exception → context)
    (qe : ast_manager → List ast → ast → ast_manager × Except z3_exception (List ast × ast))
    (c : context) (vars : List ast) (body : ast) (res : List ast × ast)
    (happ : ∀ v ∈ vars, get_kind v = ast_kind.AST_APP)
    (hq : (qe c.m vars body).2 = Except.ok res)
    (hsub : res.1.Sublist vars) :
    (Z3_qe_lite H qe c vars body).2.1 = res.1 ∧
    (Z3_qe_lite H qe c vars body).2.2 = some res.2 ∧
    (res.1.length = vars.length → (Z3_qe_lite H qe c vars body).2.1 = vars) := by
  rw [Z3_qe_lite_ok H qe c vars body res happ hq]
  have hle : res.1.length ≤ vars.length := hsub.length_le
  refine ⟨?_, rfl, ?_⟩
  · by_cases hlt : res.1.length < vars.length
    · simp [hlt]
    · have heq : res.1.length = vars.length := by omega
      simp only [hlt, if_false]
      exact (hsub.eq_of_length heq).symm
  · intro heq
    simp [heq]

/-- C6 at concrete inputs: an engine that eliminates the first of two
variables, and an engine that eliminates none. -/
theorem Z3_qe_lite_copy_back_witness :
    (Z3_qe_lite sample_handler qe_lite_drop_first sample_context [ast.iconst 0, ast.iconst 1]
        sample_formula).2.1 = [ast.iconst 1] ∧
    (Z3_qe_lite sample_handler qe_lite_id sample_context [ast.iconst 0, ast.iconst 1]
        sample_formula).2.1 = [ast.iconst 0, ast.iconst 1] ∧
    (Z3_qe_lite sample_handler qe_lite_id sample_context [] sample_formula).2.1 = [] :=
  ⟨(Z3_qe_lite_copy_back sample_handler qe_lite_drop_first sample_context
      [ast.iconst 0, ast.iconst 1] sample_formula ([ast.iconst 1], sample_formula)
      (by decide) rfl (List.sublist_cons_self _ _)).1,
    (Z3_qe_lite_copy_back sample_handler qe_lite_id sample_context
      [ast.iconst 0, ast.iconst 1] sample_formula
      ([ast.iconst 0, ast.iconst 1], sample_formula) (by decide) rfl
      (List.Sublist.refl _)).2.2 rfl,
    (Z3_qe_lite_copy_back sample_handler qe_lite_id sample_context [] sample_formula
      ([], sample_formula) (by decide) rfl (List.Sublist.refl _)).2.2 rfl⟩

/-- C7. Witness-map transfer. For every successful call of
`Z3_qe_model_project_skolem` (an array of applications, the engine returns):
after the call the caller's map sends every key of the engine's witness map to
the engine's value for it; every other key has the binding it had before; the
reference count of every term is the count it had when the transfer loop
started (after the engine call and the registration of the result on the
trail) plus one for each entry of which the term is the key and one for each
entry of which it is the value; and with an empty witness map the caller's map
is the one given. -/
theorem witness_map_transfer (H : context → z3_exception → context)
    (qe : ast_manager → List ast → ast → model →
      ast_manager × Except z3_exception (List ast × ast × expr_map))
    (c : context) (m : model) (num_bounds : Nat) (bound : Nat → ast) (body : ast)
    (map : ast_map) (res : List ast × ast × expr_map)
    (happ : ∀ i, i < num_bounds → is_app (bound i) = true)
    (hq : (qe c.m ((List.range num_bounds).map bound) body m).2 = Except.ok res) :
    (∀ k v, (k, v) ∈ res.2.2.entries →
      (Z3_qe_model_project_skolem H qe c m num_bounds bound body map).2.1 k = some v) ∧
    (∀ k, k ∉ res.2.2.entries.map Prod.fst →
      (Z3_qe_model_project_skolem H qe c m num_bounds bound body map).2.1 k = map k) ∧
    (∀ t, (Z3_qe_model_project_skolem H qe c m num_bounds bound body map).1.m.ref_count t =
      ((qe c.m ((List.range num_bounds).map bound) body m).1.inc_ref res.2.1).ref_count t
        + (res.2.2.entries.map Prod.fst).count t
        + (res.2.2.entries.map Prod.snd).count t) ∧
    (res.2.2.entries = [] →
      (Z3_qe_model_project_skolem H qe c m num_bounds bound body map).2.1 = map) := by
  rw [Z3_qe_model_project_skolem_ok H qe c m num_bounds bound body map res happ hq]
  refine ⟨?_, ?_, ?_, ?_⟩
  · intro k v hkv
    exact transfer_witnesses_entry _ _ _ k v res.2.2.keys_nodup hkv
  · intro k hk
    exact transfer_witnesses_frame _ _ _ k hk
  · intro t
    exact transfer_witnesses_ref_count _ _ _ t
  · intro hnil
    simp [hnil, transfer_witnesses]

end Z3

namespace Z3

/-- C7 at a concrete input: projecting `x` out of the formula of scenario A
under the model `x = 2`, `y = 0` binds `x` to the numeral `2` in the caller's
map. -/
theorem witness_map_transfer_witness :
    (Z3_qe_model_project_skolem sample_handler spacer.qe_project_skolem sample_context
        sample_model 1 sample_bound sample_formula empty_map).2.1 (ast.iconst 0)
      = some (ast.num 2) :=
  (witness_map_transfer sample_handler spacer.qe_project_skolem sample_context sample_model 1
      sample_bound sample_formula empty_map _ (by decide) rfl).1 (ast.iconst 0) (ast.num 2)
      (by decide)

/-- C8. Trail registration. Whenever `Z3_qe_model_project`,
`Z3_qe_model_project_skolem`, `Z3_model_extrapolate` or `Z3_qe_lite` returns a
term (a non-null handle), the trail of the context after the call is the trail
before the call followed by exactly that term. -/
theorem trail_registration :
    (∀ (H : context → z3_exception → context)
        (qe : ast_manager → List ast → ast → model →
          ast_manager × Except z3_exception (List ast × ast))
        (c : context) (m : model) (num_bounds : Nat) (bound : Nat → ast) (body t : ast),
        (Z3_qe_model_project H qe c m num_bounds bound body).2 = some t →
        (Z3_qe_model_project H qe c m num_bounds bound body).1.ast_trail
          = c.ast_trail ++ [t]) ∧
    (∀ (H : context → z3_exception → context)
        (qe : ast_manager → List ast → ast → model →
          ast_manager × Except z3_exception (List ast × ast × expr_map))
        (c : context) (m : model) (num_bounds : Nat) (bound : Nat → ast) (body : ast)
        (map : ast_map) (t : ast),
        (Z3_qe_model_project_skolem H qe c m num_bounds bound body map).2.2 = some t →
        (Z3_qe_model_project_skolem H qe c m num_bounds bound body map).1.ast_trail
          = c.ast_trail ++ [t]) ∧
    (∀ (H : context → z3_exception → context)
        (fa : List ast → List ast) (ci : model → List ast → Except z3_exception (List ast))
        (mk : List ast → ast) (c : context) (m : model) (fml t : ast),
        (Z3_model_extrapolate H fa ci mk c m fml).2 = some t →
        (Z3_model_extrapolate H fa ci mk c m fml).1.ast_trail = c.ast_trail ++ [t]) ∧
    (∀ (H : context → z3_exception → context)
        (qe : ast_manager → List ast → ast → ast_manager × Except z3_exception (List ast × ast))
        (c : context) (vars : List ast) (body t : ast),
        (Z3_qe_lite H qe c vars body).2.2 = some t →
        (Z3_qe_lite H qe c vars body).1.ast_trail = c.ast_trail ++ [t]) := by
  refine ⟨?_, ?_, ?_, ?_⟩
  · intro H qe c m n bound body t h
    rcases all_app_or_some_not n bound with hall | hsome
    · cases hq : (qe c.m ((List.range n).map bound) body m).2 with
      | error ex =>
        rw [Z3_qe_model_project_throw H qe c m n bound body ex hall hq] at h
        exact absurd h (by simp)
      | ok res =>
        rw [Z3_qe_model_project_ok H qe c m n bound body res hall hq] at h ⊢
        simp only [Option.some.injEq] at h
        simp [context.save_ast_trail, h]
    · rw [Z3_qe_model_project_err H qe c m n bound body hsome] at h
      exact absurd h (by simp)
  · intro H qe c m n bound body map t h
    rcases all_app_or_some_not n bound with hall | hsome
    · cases hq : (qe c.m ((List.range n).map bound) body m).2 with
      | error ex =>
        rw [Z3_qe_model_project_skolem_throw H qe c m n bound body map ex hall hq] at h
        exact absurd h (by simp)
      | ok res =>
        rw [Z3_qe_model_project_skolem_ok H qe c m n bound body map res hall hq] at h ⊢
        simp only [Option.some.injEq] at h
        simp [h]
    · rw [Z3_qe_model_project_skolem_err H qe c m n bound body map hsome] at h
      exact absurd h (by simp)
  · intro H fa ci mk c m fml t h
    cases hq : ci m (fa [fml]) with
    | error ex =>
      simp [Z3_model_extrapolate, hq] at h
    | ok lits =>
      simp only [Z3_model_extrapolate, List.nil_append, hq, Option.some.injEq] at h
      simp [Z3_model_extrapolate, context.save_ast_trail, RESET_ERROR_CODE, hq, h]
  · intro H qe c vars body t h
    by_cases hall : ∀ v ∈ vars, get_kind v = ast_kind.AST_APP
    · cases hq : (qe c.m vars body).2 with
      | error ex =>
        rw [Z3_qe_lite_throw H qe c vars body ex hall hq] at h
        exact absurd h (by simp)
      | ok res =>
        rw [Z3_qe_lite_ok H qe c vars body res hall hq] at h ⊢
        simp only [Option.some.injEq] at h
        simp [context.save_ast_trail, h]
    · push_neg at hall
      rw [Z3_qe_lite_err H qe c vars body hall] at h
      exact absurd h (by simp)

/-- C8 at a concrete input: the four entry points on the formula of scenario
A. -/
theorem trail_registration_witness :
    (Z3_qe_model_project sample_handler spacer.qe_project sample_context sample_model 1
        sample_bound sample_formula).1.ast_trail
      = sample_context.ast_trail ++
          [ast.and (.not (.le (.add (.num 2) (.iconst 1)) (.num 0)))
            (.not (.le (.num 5) (.num 2)))] ∧
    (Z3_qe_model_project_skolem sample_handler spacer.qe_project_skolem sample_context
        sample_model 1 sample_bound sample_formula empty_map).1.ast_trail
      = sample_context.ast_trail ++
          [ast.and (.not (.le (.add (.num 2) (.iconst 1)) (.num 0)))
            (.not (.le (.num 5) (.num 2)))] ∧
    (Z3_model_extrapolate sample_handler flatten_and
        (fun M facts => Except.ok (spacer.compute_implicant_literals M facts)) mk_and
        sample_context sample_model sample_formula).1.ast_trail
      = sample_context.ast_trail ++ [sample_formula] ∧
    (Z3_qe_lite sample_handler qe_lite_drop_first sample_context [ast.iconst 0]
        sample_formula).1.ast_trail
      = sample_context.ast_trail ++ [sample_formula] :=
  ⟨trail_registration.1 sample_handler spacer.qe_project sample_context sample_model 1
      sample_bound sample_formula _ (by decide),
    trail_registration.2.1 sample_handler spacer.qe_project_skolem sample_context
      sample_model 1 sample_bound sample_formula empty_map _ (by decide),
    trail_registration.2.2.1 sample_handler flatten_and
      (fun M facts => Except.ok (spacer.compute_implicant_literals M facts)) mk_and
      sample_context sample_model sample_formula _ (by decide),
    trail_registration.2.2.2 sample_handler qe_lite_drop_first sample_context [ast.iconst 0]
      sample_formula _ (by decide)⟩

/-- C10. Order-preserving hand-off. For every array `bound` of `num_bounds`
application terms, `to_apps` returns `true` and a vector of length `num_bounds`
whose `i`-th element is `bound[i]`; and what `Z3_qe_model_project` and
`Z3_qe_model_project_skolem` return is decided by the outcome of the engine
called with the term manager of the context, exactly that vector, the caller's
formula and the caller's model: the formula of that outcome when the engine
returns, null when it throws. -/
theorem to_apps_order_preserving (H : context → z3_exception → context)
    (qe : ast_manager → List ast → ast → model →
      ast_manager × Except z3_exception (List ast × ast))
    (qes : ast_manager → List ast → ast → model →
      ast_manager × Except z3_exception (List ast × ast × expr_map))
    (c : context) (m : model) (num_bounds : Nat) (bound : Nat → ast) (body : ast)
    (map : ast_map)
    (happ : ∀ i, i < num_bounds → is_app (bound i) = true) :
    (to_apps num_bounds bound []).1 = true ∧
    (to_apps num_bounds bound []).2.length = num_bounds ∧
    (∀ i, i < num_bounds → (to_apps num_bounds bound []).2[i]? = some (bound i)) ∧
    (Z3_qe_model_project H qe c m num_bounds bound body).2 =
      (qe c.m (to_apps num_bounds bound []).2 body m).2.toOption.map (fun res => res.2) ∧
    (Z3_qe_model_project_skolem H qes c m num_bounds bound body map).2.2 =
      (qes c.m (to_apps num_bounds bound []).2 body m).2.toOption.map
        (fun res => res.2.1) := by
  rw [to_apps_all num_bounds bound happ]
  refine ⟨rfl, by simp, ?_, ?_, ?_⟩
  · intro i hi
    simp [List.getElem?_map, List.getElem?_range hi]
  · cases hq : (qe c.m ((List.range num_bounds).map bound) body m).2 with
    | error ex =>
      rw [Z3_qe_model_project_throw H qe c m num_bounds bound body ex happ hq]
      simp [hq, Except.toOption]
    | ok res =>
      rw [Z3_qe_model_project_ok H qe c m num_bounds bound body res happ hq]
      simp [hq, Except.toOption]
  · cases hq : (qes c.m ((List.range num_bounds).map bound) body m).2 with
    | error ex =>
      rw [Z3_qe_model_project_skolem_throw H qes c m num_bounds bound body map ex happ hq]
      simp [hq, Except.toOption]
    | ok res =>
      rw [Z3_qe_model_project_skolem_ok H qes c m num_bounds bound body map res happ hq]
      simp [hq, Except.toOption]

/-- C10 at a concrete input: an array of the two constants `x` and `y`. -/
theorem to_apps_order_preserving_witness :
    to_apps 2 (fun i => ast.iconst i) [] = (true, [ast.iconst 0, ast.iconst 1]) ∧
    (to_apps 2 (fun i => ast.iconst i) []).2[1]? = some (ast.iconst 1) :=
  ⟨by decide,
    (to_apps_order_preserving sample_handler spacer.qe_project spacer.qe_project_skolem
      sample_context sample_model 2 (fun i => ast.iconst i) sample_formula empty_map
      (by decide)).2.2.1 1 (by decide)⟩

end Z3

/-! # Properties of the modelled engines -/

namespace Z3

/-- The value of a negation is the negated value. -/
theorem eval_bool_not (N : model) (e : ast) : eval_bool N (ast.not e) = !eval_bool N e := by
  simp [eval_bool]

/-- Every literal chosen by the implicant extractor is true under the model. -/
theorem implicant_true (M : model) (e : ast) :
    ∀ l ∈ spacer.implicant M e, eval_bool M l = true := by
  induction e with
  | and a b iha ihb =>
    intro l hl
    simp only [spacer.implicant] at hl
    split_ifs at hl with h1 h2
    · rcases List.mem_append.mp hl with h | h
      · exact iha l h
      · exact ihb l h
    · exact ihb l hl
    · exact iha l hl
  | or a b iha ihb =>
    intro l hl
    simp only [spacer.implicant] at hl
    split_ifs at hl with h1 h2
    · exact iha l hl
    · exact ihb l hl
    · rcases List.mem_append.mp hl with h | h
      · exact iha l h
      · exact ihb l h
  | not a iha =>
    intro l hl
    simp only [spacer.implicant] at hl
    exact iha l hl
  | _ =>
    intro l hl
    simp only [spacer.implicant, List.mem_singleton] at hl
    subst hl
    split_ifs with h
    · exact h
    · rw [eval_bool_not]
      simpa using h

/-- A model that satisfies the literals chosen for `e` under `M` gives `e` the
value that `M` gives it. -/
theorem implicant_determines (M N : model) (e : ast) :
    (∀ l ∈ spacer.implicant M e, eval_bool N l = true) → eval_bool N e = eval_bool M e := by
  induction e with
  | and a b iha ihb =>
    intro h
    simp only [spacer.implicant] at h
    simp only [eval_bool]
    split_ifs at h with h1 h2
    · rw [iha (fun l hl => h l (List.mem_append_left _ hl)),
        ihb (fun l hl => h l (List.mem_append_right _ hl))]
    · have hb := ihb h
      simp only [Bool.not_eq_true] at h2
      simp [hb, h2]
    · have ha := iha h
      simp only [Bool.not_eq_true] at h1
      simp [ha, h1]
  | or a b iha ihb =>
    intro h
    simp only [spacer.implicant] at h
    simp only [eval_bool]
    split_ifs at h with h1 h2
    · have ha := iha h
      simp [ha, h1]
    · have hb := ihb h
      simp [hb, h2]
    · rw [iha (fun l hl => h l (List.mem_append_left _ hl)),
        ihb (fun l hl => h l (List.mem_append_right _ hl))]
  | not a iha =>
    intro h
    simp only [spacer.implicant] at h
    simp only [eval_bool, iha h]
  | _ =>
    intro h
    simp only [spacer.implicant, List.mem_singleton, forall_eq] at h
    split_ifs at h with h1
    · rw [h, h1]
    · rw [eval_bool_not] at h
      simp only [Bool.not_eq_true'] at h
      simp only [Bool.not_eq_true] at h1
      rw [h, h1]

/-- Membership in the output of the implicant extractor: a literal is returned
exactly when it is chosen for one of the facts. -/
theorem mem_compute_implicant_literals (M : model) (facts : List ast) (l : ast) :
    l ∈ spacer.compute_implicant_literals M facts ↔ ∃ f ∈ facts, l ∈ spacer.implicant M f := by
  induction facts with
  | nil => simp [spacer.compute_implicant_literals]
  | cons f fs ih => simp [spacer.compute_implicant_literals, ih]

/-- A model satisfies the conjunction of a list exactly when it satisfies every
element. -/
theorem eval_mk_and (N : model) (lits : List ast) :
    eval_bool N (mk_and lits) = true ↔ ∀ l ∈ lits, eval_bool N l = true := by
  induction lits with
  | nil => simp [mk_and, eval_bool]
  | cons a rest ih =>
    cases rest with
    | nil => simp [mk_and]
    | cons b rest =>
      simp only [mk_and, eval_bool, Bool.and_eq_true, ih]
      simp

/-- A model satisfies a fact exactly when it satisfies every conjunct into
which the fact is split. -/
theorem eval_flatten_and_core (N : model) (e : ast) :
    (∀ l ∈ flatten_and_core e, eval_bool N l = true) ↔ eval_bool N e = true := by
  induction e with
  | and a b iha ihb =>
    simp only [flatten_and_core, List.mem_append, eval_bool, Bool.and_eq_true, ← iha, ← ihb]
    constructor
    · intro h
      exact ⟨fun l hl => h l (Or.inl hl), fun l hl => h l (Or.inr hl)⟩
    · intro h l hl
      rcases hl with hl | hl
      · exact h.1 l hl
      · exact h.2 l hl
  | _ => simp [flatten_and_core]

/-- A model satisfies every element of the flattened singleton list `[e]`
exactly when it satisfies `e`. -/
theorem eval_flatten_and_singleton (N : model) (e : ast) :
    (∀ l ∈ flatten_and [e], eval_bool N l = true) ↔ eval_bool N e = true := by
  simp only [flatten_and, List.append_nil]
  exact eval_flatten_and_core N e

/-- The literals returned for the flattened formula are true under the
model. -/
theorem implicant_literals_true (M : model) (fml : ast) :
    ∀ l ∈ spacer.compute_implicant_literals M (flatten_and [fml]), eval_bool M l = true := by
  intro l hl
  obtain ⟨f, _, hlf⟩ := (mem_compute_implicant_literals M _ l).mp hl
  exact implicant_true M f l hlf

/-- When the model `M` satisfies the formula, every model that satisfies the
literals returned for it satisfies the formula. -/
theorem implicant_literals_imply (M N : model) (fml : ast) (hM : eval_bool M fml = true)
    (hN : ∀ l ∈ spacer.compute_implicant_literals M (flatten_and [fml]), eval_bool N l = true) :
    eval_bool N fml = true := by
  rw [← eval_flatten_and_singleton]
  intro f hf
  have hMf : eval_bool M f = true := (eval_flatten_and_singleton M fml).mpr hM f hf
  rw [implicant_determines M N f
    (fun l hl => hN l ((mem_compute_implicant_literals M _ l).mpr ⟨f, hf, hl⟩))]
  exact hMf

/-- Whatever the list of literals, if each is true under `M` and their
conjunction implies the formula, then `M` satisfies the formula. -/
theorem literals_force_model (M : model) (lits : List ast) (fml : ast)
    (h1 : ∀ l ∈ lits, eval_bool M l = true)
    (h2 : ∀ N : model, eval_bool N (mk_and lits) = true → eval_bool N fml = true) :
    eval_bool M fml = true :=
  h2 M ((eval_mk_and M lits).mpr h1)

end Z3

namespace Z3

end Z3

namespace Z3

/-- C5 as stated fails at the formula `false`: under the sample model the
literals returned for `false` are all true, and yet their conjunction does not
imply `false`; so the two properties of the claim do not hold together. -/
theorem implicant_soundness_counterexample :
    ¬ ((∀ l ∈ spacer.compute_implicant_literals sample_model (flatten_and [ast.ff]),
          eval_bool sample_model l = true) ∧
        (∀ N : model,
          eval_bool N
            (mk_and (spacer.compute_implicant_literals sample_model (flatten_and [ast.ff])))
            = true →
          eval_bool N ast.ff = true)) := by
  intro h
  have := literals_force_model sample_model _ ast.ff h.1 h.2
  simp [eval_bool] at this

/-- C5, amended. For every model `M` and formula `fml`, `Z3_model_extrapolate`
(with the engines modelled from the spec) returns the conjunction of the
literals that the implicant extractor produces for the fact list obtained by
splitting `fml` at its top-level conjunctions; every one of those literals is
true under `M`; and when `M` satisfies `fml`, their conjunction implies
`fml`. -/
theorem implicant_sound (H : context → z3_exception → context) (c : context) (M : model)
    (fml : ast) :
    (Z3_model_extrapolate H flatten_and
        (fun M facts => Except.ok (spacer.compute_implicant_literals M facts)) mk_and
        c M fml).2 =
      some (mk_and (spacer.compute_implicant_literals M (flatten_and [fml]))) ∧
    (∀ l ∈ spacer.compute_implicant_literals M (flatten_and [fml]), eval_bool M l = true) ∧
    (eval_bool M fml = true →
      ∀ N : model,
        eval_bool N (mk_and (spacer.compute_implicant_literals M (flatten_and [fml]))) = true →
        eval_bool N fml = true) := by
  refine ⟨by simp [Z3_model_extrapolate], implicant_literals_true M fml, ?_⟩
  intro hM N hN
  rw [eval_mk_and] at hN
  exact implicant_literals_imply M N fml hM hN

/-- C5, amended, at the input of scenario A of the spec: the returned term is
the conjunction of the two literals of the formula. -/
theorem implicant_sound_witness :
    (Z3_model_extrapolate sample_handler flatten_and
        (fun M facts => Except.ok (spacer.compute_implicant_literals M facts)) mk_and
        sample_context sample_model sample_formula).2 =
      some (mk_and [ast.not (.le (.add (.iconst 0) (.iconst 1)) (.num 0)),
        ast.not (.le (.num 5) (.iconst 0))]) :=
  (implicant_sound sample_handler sample_context sample_model sample_formula).1.trans
    (by decide)

end Z3
